import Mathlib

/-!
Verification of the JSON-to-CSV converter in `src/mcp_massive/formatters.py`
(`json_to_csv` and `_flatten_dict`).

Modelling conventions (shallow embedding of the Python code):
* A parsed JSON value is the mutual inductive `Json` / `JsonArr` / `JsonObj`
  below.  JSON numbers are modelled as integers (no claim involves floating
  point); object key order is the parse/insertion order, as in Python dicts.
* The Python builtin `str`/`repr` on JSON-decodable values is modelled by
  `pyStr` / `pyRepr` (`str(None) = "None"`, `str(True) = "True"`, integers in
  decimal, `str` of a list/dict is its `repr`, `repr` of a string uses single
  quotes unless the string contains a single quote and no double quote, with
  backslash/quote/newline/carriage-return/tab escapes; other control
  characters are left unescaped, a simplification not exercised here).
* `csv.DictWriter(output, fieldnames, lineterminator="\n")` with the default
  `excel` dialect is modelled by `csvRow` / `dictWriterRow`: QUOTE_MINIMAL
  quotes a field containing a comma, a double quote or a newline (doubling
  internal quotes), a lone empty field in a one-field row is emitted as `""`,
  a `None` cell and a missing key (the default restval, an empty string) both give an empty field,
  and a zero-field row is just the line terminator.
-/

mutual

inductive Json : Type where
  | null : Json
  | bool (b : Bool) : Json
  | num (n : Int) : Json
  | str (s : String) : Json
  | arr (elts : JsonArr) : Json
  | obj (fields : JsonObj) : Json

inductive JsonArr : Type where
  | nil : JsonArr
  | cons (hd : Json) (tl : JsonArr) : JsonArr

inductive JsonObj : Type where
  | nil : JsonObj
  | cons (key : String) (val : Json) (tl : JsonObj) : JsonObj

end

def JsonArr.toList : JsonArr → List Json
  | .nil => []
  | .cons x tl => x :: tl.toList

/-- Lookup of `o[k]` / `k in o`; parsed Python dicts have unique keys, so the
first match is the binding. -/
def JsonObj.lookup : JsonObj → String → Option Json
  | .nil, _ => none
  | .cons key v tl, k => if key = k then some v else tl.lookup k

def Json.isObj : Json → Bool
  | .obj _ => true
  | _ => false

/-! ### Python `str` / `repr` -/

/-- One character of a Python string `repr` with quote character `q`. -/
def pyEscChar (q : Char) (c : Char) : List Char :=
  if c = '\\' then ['\\', '\\']
  else if c = q then ['\\', q]
  else if c = '\n' then ['\\', 'n']
  else if c = '\r' then ['\\', 'r']
  else if c = '\t' then ['\\', 't']
  else [c]

/-- Python `repr` of a string: single-quoted, unless the string contains a
single quote and no double quote, in which case it is double-quoted. -/
def pyReprString (s : String) : String :=
  let q : Char := if s.data.contains '\'' && !s.data.contains '\"' then '\"' else '\''
  String.mk (q :: s.data.foldr (fun c acc => pyEscChar q c ++ acc) [q])

mutual

/-- Python `repr` on JSON-decodable values. -/
def pyRepr : Json → String
  | .null => "None"
  | .bool true => "True"
  | .bool false => "False"
  | .num n => toString n
  | .str s => pyReprString s
  | .arr a => "[" ++ pyReprArr a ++ "]"
  | .obj o => "\x7b" ++ pyReprObj o ++ "\x7d"
termination_by structural v => v

def pyReprArr : JsonArr → String
  | .nil => ""
  | .cons x .nil => pyRepr x
  | .cons x (JsonArr.cons y tl) => pyRepr x ++ ", " ++ pyReprArr (JsonArr.cons y tl)
termination_by structural a => a

def pyReprObj : JsonObj → String
  | .nil => ""
  | .cons k v .nil => pyReprString k ++ ": " ++ pyRepr v
  | .cons k v (JsonObj.cons k2 v2 tl) =>
      pyReprString k ++ ": " ++ pyRepr v ++ ", " ++ pyReprObj (JsonObj.cons k2 v2 tl)
termination_by structural o => o

end

/-- Python `str` on JSON-decodable values: the string itself for strings,
otherwise `repr`. -/
def pyStr : Json → String
  | .str s => s
  | v => pyRepr v

/-! ### `_flatten_dict` -/

/-- One `d[k] = v` step of building a Python dict from a pair list: an existing
key keeps its position and takes the new value, a new key is appended. -/
def insertItem (acc : List (String × Json)) (k : String) (v : Json) :
    List (String × Json) :=
  if acc.any (fun p => p.1 = k) then
    acc.map (fun p => if p.1 = k then (p.1, v) else p)
  else acc ++ [(k, v)]

/-- Python `dict(items)`: first-occurrence key order, last-write-wins values. -/
def dictOfItems (items : List (String × Json)) : List (String × Json) :=
  items.foldl (fun acc kv => insertItem acc kv.1 kv.2) []

/-- `new_key = f"{parent_key}{sep}{k}" if parent_key else k` with `sep = "_"`. -/
def newKey (parent k : String) : String :=
  if parent = "" then k else parent ++ "_" ++ k

/-- The `items` list accumulated by `_flatten_dict(d, parent_key, sep="_")`:
nested dicts are recursively flattened (the recursive call returns
`dict(...)`, whose `.items()` are spliced in), lists become `str(v)`, other
values are kept unchanged. -/
def flattenItems : JsonObj → String → List (String × Json)
  | .nil, _ => []
  | .cons k v tl, parent =>
    let nk := newKey parent k
    (match v with
     | .obj o => dictOfItems (flattenItems o nk)
     | .arr a => [(nk, Json.str (pyStr (Json.arr a)))]
     | w => [(nk, w)]) ++ flattenItems tl parent
termination_by structural o => o

/-- `_flatten_dict(d, parent_key, sep="_") = dict(items)`. -/
def flattenDict (o : JsonObj) (parent : String) : List (String × Json) :=
  dictOfItems (flattenItems o parent)

/-! ### Record extraction (`json_to_csv`, lines 29–45) -/

/-- The `records` list chosen by `json_to_csv` from the parsed value. -/
def extractRecords (data : Json) : List Json :=
  match data with
  | .obj o =>
    match o.lookup "results" with
    | some rv =>
      match rv with
      | .arr a => a.toList        -- results is a list
      | .obj f => [Json.obj f]    -- single object response
      | _ => [rv]                 -- scalar / null results value
    | none =>
      match o.lookup "last" with
      | some lv =>
        match lv with
        | .obj f => [Json.obj f]
        | _ => [Json.obj o]       -- fallback: the whole original mapping
      | none => [Json.obj o]      -- dict without either key → [data]
  | .arr a => a.toList
  | _ => [data]

/-- One entry of `flattened_records`: dicts are flattened, anything else is
wrapped as `{"value": str(record)}`. -/
def toFlatRow (r : Json) : List (String × Json) :=
  match r with
  | .obj o => flattenDict o ""
  | _ => [("value", Json.str (pyStr r))]

/-! ### Header union (`all_keys`) -/

/-- `if key not in seen: all_keys.append(key)`; `seen` always holds exactly
the elements of the accumulated list, so membership in the list is the same
test. -/
def insertKey (acc : List String) (k : String) : List String :=
  if k ∈ acc then acc else acc ++ [k]

def addKeys (acc : List String) (row : List (String × Json)) : List String :=
  row.foldl (fun a kv => insertKey a kv.1) acc

/-- `all_keys`: union of the keys of the rows in first-seen order (every flattened
record is a dict, so the `isinstance` guard in the loop is always true). -/
def allKeys (rows : List (List (String × Json))) : List String :=
  rows.foldl addKeys []

/-! ### CSV writer -/

/-- QUOTE_MINIMAL trigger: delimiter, quote char, or a line-terminator char. -/
def needsQuote (s : String) : Bool :=
  s.data.any (fun c => c = ',' || c = '\"' || c = '\n')

/-- Double every internal quote character. -/
def escapeQuotes (s : String) : String :=
  String.mk (s.data.foldr (fun c acc =>
    if c = '\"' then '\"' :: '\"' :: acc else c :: acc) [])

def quoteField (s : String) : String := "\"" ++ escapeQuotes s ++ "\""

/-- Render one field; `single` records whether the row has exactly one field
(CPython quotes a lone empty field so the row is not an empty line). -/
def csvField (single : Bool) (s : String) : String :=
  if needsQuote s || (single && s == "") then quoteField s else s

/-- One `csv.writer` row with `lineterminator="\n"`. -/
def csvRow (fields : List String) : String :=
  String.intercalate "," (fields.map (csvField (fields.length == 1))) ++ "\n"

/-- The cell conversion of the csv module: `None` becomes an empty field, strings
pass through, any other value is written as `str(value)`. -/
def fieldText : Json → String
  | .null => ""
  | .str s => s
  | v => pyStr v

def lookupRow (row : List (String × Json)) (k : String) : Option Json :=
  (row.find? (fun p => p.1 == k)).map Prod.snd

/-- The `_dict_to_list` step of `DictWriter`: header-ordered cells, missing keys filled
with the default `restval`, the empty string (rows never hold keys outside `fieldnames`
here, so `extrasaction="raise"` never fires). -/
def dictWriterRow (fieldnames : List String) (row : List (String × Json)) :
    List String :=
  fieldnames.map (fun k =>
    match lookupRow row k with
    | some v => fieldText v
    | none => "")

/-! ### `json_to_csv` -/

/-- `json_to_csv` on an already-parsed value (the code after the parse step). -/
def json_to_csv_data (data : Json) : String :=
  let flattened := (extractRecords data).map toFlatRow
  if flattened.isEmpty then ""
  else
    let all_keys := allKeys flattened
    csvRow all_keys ++ String.join (flattened.map (fun r => csvRow (dictWriterRow all_keys r)))

/-- Input to `json_to_csv`: a string input is represented by the outcome of
`json.loads` on it (`none` = `json.JSONDecodeError`); `json.loads` is Python
stdlib, external to this repository. A non-string input is passed through
unparsed. -/
inductive JsonInput : Type where
  | text (parsed : Option Json) : JsonInput
  | value (data : Json) : JsonInput

/-- `json_to_csv`: a string that fails to parse returns `""`; otherwise the
parsed (or passed-through) value is converted. -/
def json_to_csv : JsonInput → String
  | .text none => ""
  | .text (some data) => json_to_csv_data data
  | .value data => json_to_csv_data data

/-! ### Specification-side definitions -/

def Json.getKey : Json → String → Option Json
  | .obj o, k => o.lookup k
  | _, _ => none

def Json.asSeq : Json → Option (List Json)
  | .arr a => some a.toList
  | _ => none

/-- The Record Extractor exactly as the specification words it (§4.1): if
`data` is a mapping with key `"results"` (checked before `"last"`), a sequence
value becomes the record list, a mapping value becomes a one-element list, and
any other value becomes a one-element list of that raw value; else if `data`
is a mapping with key `"last"`, a mapping value there gives `[that mapping]`
and any other value gives `[data]`; else a sequence `data` is used directly;
else the record list is `[data]`. -/
def specRecordExtractor (data : Json) : List Json :=
  match data.getKey "results" with
  | some rv =>
    match rv.asSeq with
    | some l => l
    | none => [rv]
  | none =>
    match data.getKey "last" with
    | some lv => if lv.isObj then [lv] else [data]
    | none =>
      match data.asSeq with
      | some l => l
      | none => [data]

/-- First-occurrence deduplication: the canonical description of a
first-seen-order union of keys. -/
def dedupFirst : List String → List String
  | [] => []
  | k :: ks => k :: dedupFirst (ks.filter (fun x => x ≠ k))
termination_by l => l.length
decreasing_by
  simp only [List.length_cons]
  exact Nat.lt_succ_of_le (List.length_filter_le _ _)

/-- Collapse every doubled quote character into a single one. -/
def collapseQuotes : List Char → List Char
  | [] => []
  | [c] => [c]
  | c :: d :: cs =>
    if c = '\"' && d = '\"' then '\"' :: collapseQuotes cs
    else c :: collapseQuotes (d :: cs)

/-- Modelled from the spec: the field-level read-back of a standard CSV reader
(the reading side is Python stdlib `csv.reader`, not part of this repository):
a field that starts with a quote is read by stripping the enclosing quotes and
collapsing doubled quote characters; any other field is read as-is. -/
def csvReadField (s : String) : String :=
  match s.data with
  | '\"' :: rest => String.mk (collapseQuotes rest.dropLast)
  | _ => s

/-! ### Concrete inputs used by the claims -/

/-- `{"results": [{"a": 1}, {"a": 2, "b": 3}]}` -/
def exResultsAB : Json :=
  Json.obj (JsonObj.cons "results"
    (Json.arr (JsonArr.cons (Json.obj (JsonObj.cons "a" (Json.num 1) JsonObj.nil))
      (JsonArr.cons (Json.obj (JsonObj.cons "a" (Json.num 2)
        (JsonObj.cons "b" (Json.num 3) JsonObj.nil))) JsonArr.nil))) JsonObj.nil)

/-- `{"results": [{"a": {"b": 1, "c": 2}}]}` -/
def exNestedBC : Json :=
  Json.obj (JsonObj.cons "results"
    (Json.arr (JsonArr.cons (Json.obj (JsonObj.cons "a"
      (Json.obj (JsonObj.cons "b" (Json.num 1)
        (JsonObj.cons "c" (Json.num 2) JsonObj.nil))) JsonObj.nil)) JsonArr.nil))
    JsonObj.nil)

/-- `{"results": [{"tags": ["x", "y"]}]}` -/
def exTags : Json :=
  Json.obj (JsonObj.cons "results"
    (Json.arr (JsonArr.cons (Json.obj (JsonObj.cons "tags"
      (Json.arr (JsonArr.cons (Json.str "x")
        (JsonArr.cons (Json.str "y") JsonArr.nil))) JsonObj.nil)) JsonArr.nil))
    JsonObj.nil)

/-- `{"results": [1, 2]}` -/
def exResults12 : Json :=
  Json.obj (JsonObj.cons "results"
    (Json.arr (JsonArr.cons (Json.num 1) (JsonArr.cons (Json.num 2) JsonArr.nil)))
    JsonObj.nil)

/-- `{"results": [{"k": null, "j": 1}]}` -/
def exNullField : Json :=
  Json.obj (JsonObj.cons "results"
    (Json.arr (JsonArr.cons (Json.obj (JsonObj.cons "k" Json.null
      (JsonObj.cons "j" (Json.num 1) JsonObj.nil))) JsonArr.nil)) JsonObj.nil)

/-- `[null]`: a record list whose single record is the JSON value null. -/
def exNullRecord : Json := Json.arr (JsonArr.cons Json.null JsonArr.nil)

example : json_to_csv_data (Json.obj (JsonObj.cons "results"
    (Json.arr (JsonArr.cons (Json.obj (JsonObj.cons "a" (Json.num 1) JsonObj.nil))
      (JsonArr.cons (Json.obj (JsonObj.cons "a" (Json.num 2)
        (JsonObj.cons "b" (Json.num 3) JsonObj.nil))) JsonArr.nil))) JsonObj.nil))
    = "a,b\n1,\n2,3\n" := by rfl

example : json_to_csv_data Json.null = "value\nNone\n" := by rfl

example : json_to_csv_data (Json.obj JsonObj.nil) = "\n\n" := by rfl

example : json_to_csv_data (Json.arr JsonArr.nil) = "" := by rfl

/-! ### Helper lemmas -/

theorem csvRow_length_pos (fields : List String) : 0 < (csvRow fields).length := by
  unfold csvRow
  rw [String.length_append]
  exact Nat.lt_of_lt_of_le (by decide) (Nat.le_add_left _ _)

theorem json_to_csv_data_of_records_nil (data : Json)
    (h : extractRecords data = []) : json_to_csv_data data = "" := by
  unfold json_to_csv_data
  simp [h]

theorem json_to_csv_data_of_records_ne_nil (data : Json)
    (h : extractRecords data ≠ []) :
    json_to_csv_data data =
      csvRow (allKeys ((extractRecords data).map toFlatRow))
        ++ String.join (((extractRecords data).map toFlatRow).map
            (fun r => csvRow (dictWriterRow
              (allKeys ((extractRecords data).map toFlatRow)) r))) := by
  unfold json_to_csv_data
  have hne : ((extractRecords data).map toFlatRow).isEmpty = false := by
    simp [List.isEmpty_iff, h]
  simp [hne]

/-! ### C2: the dispatch of the Record Extractor -/

/-- C2: for every parsed JSON value, the record list chosen by `json_to_csv`
is exactly the ordered, mutually exclusive dispatch stated in the spec:
`"results"` (sequence → itself, mapping → singleton, other → singleton of the
raw value) is checked before `"last"` (mapping value → `[that mapping]`,
other → `[data]`), then a sequence is used directly, then `[data]`. -/
theorem extractRecords_matches_spec (data : Json) :
    extractRecords data = specRecordExtractor data := by
  cases data with
  | obj o =>
    unfold extractRecords specRecordExtractor
    cases hr : o.lookup "results" with
    | some rv => cases rv <;> simp [Json.getKey, Json.asSeq, hr]
    | none =>
      cases hl : o.lookup "last" with
      | some lv =>
        cases lv <;> simp [Json.getKey, Json.asSeq, Json.isObj, hr, hl]
      | none => simp [Json.getKey, Json.asSeq, hr, hl]
  | arr a => rfl
  | null => rfl
  | bool b => rfl
  | num n => rfl
  | str s => rfl

/-! ### C1: which inputs yield the empty string -/

/-- C1 counterexample: converting the JSON value `null` yields
`"value\nNone\n"` and converting `\x7b\x7d` yields `"\n\n"`, so neither is the
empty string the claim requires (and for `\x7b\x7d` the computed header is
empty yet the result is not `""`). -/
theorem json_to_csv_null_not_empty :
    json_to_csv (JsonInput.value Json.null) = "value\nNone\n"
    ∧ json_to_csv (JsonInput.value (Json.obj JsonObj.nil)) = "\n\n"
    ∧ json_to_csv (JsonInput.value Json.null) ≠ "" :=
  ⟨rfl, rfl, by decide⟩

/-- C1 amended: an unparseable string and the empty sequence `[]` convert to
`""`, and in general the result is `""` exactly when the extracted record
list is empty; `null` instead yields `"value\nNone\n"` and `\x7b\x7d` yields
`"\n\n"` (a zero-column header line plus one empty row line). -/
theorem json_to_csv_empty_iff_no_records :
    json_to_csv (JsonInput.text none) = ""
    ∧ json_to_csv (JsonInput.value (Json.arr JsonArr.nil)) = ""
    ∧ json_to_csv (JsonInput.value Json.null) = "value\nNone\n"
    ∧ json_to_csv (JsonInput.value (Json.obj JsonObj.nil)) = "\n\n"
    ∧ ∀ data : Json, (json_to_csv_data data = "" ↔ extractRecords data = []) := by
  refine ⟨rfl, rfl, rfl, rfl, fun data => ⟨fun h => ?_, fun h => ?_⟩⟩
  · by_contra hne
    rw [json_to_csv_data_of_records_ne_nil data hne] at h
    have hlen := congrArg String.length h
    rw [String.length_append] at hlen
    have := csvRow_length_pos (allKeys ((extractRecords data).map toFlatRow))
    simp at hlen
    omega
  · exact json_to_csv_data_of_records_nil data h

/-! ### C8: non-mapping records are wrapped -/

/-- C8: every element of the extracted record list that is not itself a
mapping is replaced by the one-field mapping from `"value"` to the canonical
text form of the element. -/
theorem nonmapping_record_wrapped (r : Json) (h : r.isObj = false) :
    toFlatRow r = [("value", Json.str (pyStr r))] := by
  cases r with
  | obj o => simp [Json.isObj] at h
  | null => rfl
  | bool b => rfl
  | num n => rfl
  | str s => rfl
  | arr a => rfl

/-- C8 witness: the record `1` is wrapped as the mapping from `"value"` to
`"1"`, and `\x7b"results": [1, 2]\x7d` converts to header `value` with rows
`1` and `2`. -/
theorem nonmapping_record_wrapped_witness :
    toFlatRow (Json.num 1) = [("value", Json.str "1")]
    ∧ json_to_csv_data exResults12 = "value\n1\n2\n" :=
  ⟨(nonmapping_record_wrapped (Json.num 1) rfl).trans (by rfl), by rfl⟩

/-! ### C7: sequences become one stringified column -/

/-- C7: a sequence value contributes exactly one item, at its own path, whose
value is the canonical string form of the entire sequence (it is never
expanded into several indexed columns); `\x7b"results": [\x7b"tags":
["x", "y"]\x7d]\x7d` yields the single header `tags` whose row value is the
literal text form of the list. -/
theorem sequence_single_column :
    (∀ (k : String) (a : JsonArr) (tl : JsonObj) (p : String),
        flattenItems (JsonObj.cons k (Json.arr a) tl) p
          = (newKey p k, Json.str (pyStr (Json.arr a))) :: flattenItems tl p)
    ∧ json_to_csv_data exTags = "tags\n\"[\x27x\x27, \x27y\x27]\"\n" :=
  ⟨fun _ _ _ _ => rfl, by rfl⟩

/-! ### C10: the two textual forms of null -/

/-- C10: a null value under a key is carried unchanged into the Flat Row and
the writer renders it as an empty field, while a record that is itself null is
wrapped as the text `str(None) = "None"`; the same JSON value thus receives
two different canonical texts depending on its position. -/
theorem null_two_canonical_texts :
    fieldText Json.null = ""
    ∧ pyStr Json.null = "None"
    ∧ json_to_csv_data exNullField = "k,j\n,1\n"
    ∧ json_to_csv_data exNullRecord = "value\nNone\n" :=
  ⟨rfl, rfl, by rfl, by rfl⟩

/-! ### C4: the header is the first-seen-order union of the row keys -/

theorem mem_dedupFirst (l : List String) (k : String) :
    k ∈ dedupFirst l ↔ k ∈ l := by
  induction l using dedupFirst.induct with
  | case1 => simp [dedupFirst]
  | case2 x xs ih =>
    rw [dedupFirst]
    by_cases hk : k = x
    · simp [hk]
    · simp only [List.mem_cons, ih, List.mem_filter, decide_eq_true_eq]
      constructor
      · rintro (h | ⟨h, _⟩)
        · exact Or.inl h
        · exact Or.inr h
      · rintro (h | h)
        · exact Or.inl h
        · exact Or.inr ⟨h, hk⟩

theorem nodup_dedupFirst (l : List String) : (dedupFirst l).Nodup := by
  induction l using dedupFirst.induct with
  | case1 => simp [dedupFirst]
  | case2 x xs ih =>
    rw [dedupFirst]
    refine List.nodup_cons.mpr ⟨fun hx => ?_, ih⟩
    have := (mem_dedupFirst _ x).mp hx
    simp at this

theorem foldl_insertKey_eq (l : List String) (acc : List String) :
    l.foldl insertKey acc = acc ++ dedupFirst (l.filter (fun x => x ∉ acc)) := by
  induction l generalizing acc with
  | nil => simp [dedupFirst]
  | cons x xs ih =>
    by_cases hx : x ∈ acc
    · have h1 : insertKey acc x = acc := by simp [insertKey, hx]
      have h2 : (x :: xs).filter (fun y => y ∉ acc) = xs.filter (fun y => y ∉ acc) := by
        simp [List.filter_cons, hx]
      rw [List.foldl_cons, h1, h2, ih]
    · have h1 : insertKey acc x = acc ++ [x] := by simp [insertKey, hx]
      have h2 : (x :: xs).filter (fun y => y ∉ acc) = x :: xs.filter (fun y => y ∉ acc) := by
        simp [List.filter_cons, hx]
      have h3 : xs.filter (fun y => y ∉ acc ++ [x])
          = (xs.filter (fun y => y ∉ acc)).filter (fun y => y ≠ x) := by
        rw [List.filter_filter]
        refine List.filter_congr fun y _ => ?_
        simp only [List.mem_append, List.mem_singleton, not_or, decide_eq_true_eq]
        by_cases hya : y ∈ acc <;> by_cases hyx : y = x <;> simp [hya, hyx]
      rw [List.foldl_cons, h1, ih, h2, dedupFirst, h3, List.append_assoc,
        List.singleton_append]

theorem allKeys_eq_foldl (rows : List (List (String × Json))) (acc : List String) :
    rows.foldl addKeys acc
      = ((rows.map (fun r => r.map Prod.fst)).flatten).foldl insertKey acc := by
  induction rows generalizing acc with
  | nil => rfl
  | cons r rs ih =>
    have haddKeys : addKeys acc r = (r.map Prod.fst).foldl insertKey acc := by
      rw [List.foldl_map]
      rfl
    rw [List.foldl_cons, ih, List.map_cons, List.flatten_cons, List.foldl_append,
      haddKeys]

/-- C4: the computed header contains every key that appears in any flat row,
exactly once, in first-appearance order scanning the rows in record order and
each row in its own key order (the first-occurrence deduplication of the
concatenated key lists); being a pure function of the input, it is the same
on any two runs. -/
theorem header_first_seen_order (data : Json) :
    (allKeys ((extractRecords data).map toFlatRow)).Nodup
    ∧ (∀ k, k ∈ allKeys ((extractRecords data).map toFlatRow)
        ↔ ∃ row ∈ (extractRecords data).map toFlatRow, k ∈ row.map Prod.fst)
    ∧ allKeys ((extractRecords data).map toFlatRow)
        = dedupFirst ((((extractRecords data).map toFlatRow).map
            (fun r => r.map Prod.fst)).flatten) := by
  generalize (extractRecords data).map toFlatRow = rows
  have hmain : allKeys rows
      = dedupFirst ((rows.map (fun r => r.map Prod.fst)).flatten) := by
    rw [allKeys, allKeys_eq_foldl, foldl_insertKey_eq, List.nil_append]
    congr 1
    exact List.filter_eq_self.mpr fun a _ => by simp
  refine ⟨hmain ▸ nodup_dedupFirst _, fun k => ?_, hmain⟩
  rw [hmain, mem_dedupFirst, List.mem_flatten]
  constructor
  · rintro ⟨l, hl, hkl⟩
    obtain ⟨row, hrow, rfl⟩ := List.mem_map.mp hl
    exact ⟨row, hrow, hkl⟩
  · rintro ⟨row, hrow, hkl⟩
    exact ⟨row.map Prod.fst, List.mem_map.mpr ⟨row, hrow, rfl⟩, hkl⟩

/-! ### C3: totality of the conversion -/

theorem foldl_append_data (l : List String) (init : String) :
    (l.foldl (fun r s => r ++ s) init).data
      = init.data ++ (l.map String.data).flatten := by
  induction l generalizing init with
  | nil => simp
  | cons s rest ih =>
    simp [List.foldl_cons, ih, String.data_append, List.append_assoc]

theorem join_data (l : List String) :
    (String.join l).data = (l.map String.data).flatten := by
  simpa [String.join] using foldl_append_data l ""

theorem join_cons_append (s : String) (l : List String) :
    String.join (s :: l) = s ++ String.join l := by
  apply String.ext
  rw [String.data_append, join_data, join_data, List.map_cons, List.flatten_cons]

theorem csvRow_getLast (fields : List String) :
    (csvRow fields).data.getLast? = some '\n' := by
  unfold csvRow
  rw [String.data_append]
  exact List.getLast?_concat _

theorem join_rows_getLast (l : List String)
    (h : ∀ s ∈ l, s.data.getLast? = some '\n') (hne : l ≠ []) :
    (String.join l).data.getLast? = some '\n' := by
  induction l with
  | nil => cases hne rfl
  | cons x xs ih =>
    rw [join_cons_append, String.data_append, List.getLast?_append]
    cases xs with
    | nil => simpa [String.join] using h x (by simp)
    | cons y ys =>
      rw [ih (fun s hs => h s (List.mem_cons_of_mem _ hs)) (by simp)]
      rfl

/-- C3: `json_to_csv` is modelled by a total Lean function; a string input
that fails to parse returns `""` rather than an error, and every parsed value
is mapped through the full pipeline to a defined output, which is either the
empty string or a well-formed newline-terminated text. -/
theorem json_to_csv_total :
    json_to_csv (JsonInput.text none) = ""
    ∧ (∀ data : Json, json_to_csv (JsonInput.value data) = json_to_csv_data data)
    ∧ ∀ data : Json,
        json_to_csv_data data = ""
        ∨ (json_to_csv_data data).data.getLast? = some '\n' := by
  refine ⟨rfl, fun _ => rfl, fun data => ?_⟩
  by_cases h : extractRecords data = []
  · exact Or.inl (json_to_csv_data_of_records_nil data h)
  · refine Or.inr ?_
    rw [json_to_csv_data_of_records_ne_nil data h, String.data_append,
      List.getLast?_append]
    have hjoin : (String.join (((extractRecords data).map toFlatRow).map
        (fun r => csvRow (dictWriterRow
          (allKeys ((extractRecords data).map toFlatRow)) r)))).data.getLast?
        = some '\n' := by
      apply join_rows_getLast
      · intro s hs
        obtain ⟨r, _, rfl⟩ := List.mem_map.mp hs
        exact csvRow_getLast _
      · simp [h]
    rw [hjoin]
    rfl

/-! ### C5: shape of the output when the header is non-empty -/

/-- C5: when the computed header is non-empty, the output is the header line
followed by exactly one line per extracted record (also for records that
flatten to an empty row), every line written by `csvRow` and hence
`\n`-terminated, with each row holding one cell per header column in header
order and the empty field for a column the row lacks. -/
theorem nonempty_header_output (data : Json)
    (h : allKeys ((extractRecords data).map toFlatRow) ≠ []) :
    json_to_csv_data data
      = String.join ((allKeys ((extractRecords data).map toFlatRow)
          :: (extractRecords data).map
              (fun r => dictWriterRow (allKeys ((extractRecords data).map toFlatRow))
                (toFlatRow r))).map csvRow)
    ∧ (∀ fields : List String, (csvRow fields).data.getLast? = some '\n')
    ∧ ∀ row : List (String × Json),
        dictWriterRow (allKeys ((extractRecords data).map toFlatRow)) row
          = (allKeys ((extractRecords data).map toFlatRow)).map (fun k =>
              match lookupRow row k with
              | some v => fieldText v
              | none => "") := by
  have hrec : extractRecords data ≠ [] := by
    intro hnil
    apply h
    rw [hnil]
    rfl
  refine ⟨?_, csvRow_getLast, fun row => rfl⟩
  rw [json_to_csv_data_of_records_ne_nil data hrec, List.map_cons,
    join_cons_append, List.map_map, List.map_map]
  rfl

/-- C5 witness: `\x7b"results": [\x7b"a": 1\x7d, \x7b"a": 2, "b": 3\x7d]\x7d`
yields header `a,b` and data rows `1,` and `2,3`. -/
theorem nonempty_header_output_witness :
    json_to_csv_data exResultsAB = "a,b\n1,\n2,3\n" := by
  rw [(nonempty_header_output exResultsAB (by decide)).1]
  rfl

/-! ### C6: underscore path-joining and last-write-wins merging -/

theorem append_underscore_ne (a b : String) : a ++ "_" ++ b ≠ "" := by
  intro h
  have hlen := congrArg String.length h
  rw [String.length_append, String.length_append] at hlen
  have h1 : "_".length = 1 := rfl
  have h0 : "".length = 0 := rfl
  omega

theorem prefix_key_inj (p a b : String) (h : p ++ "_" ++ a = p ++ "_" ++ b) :
    a = b := by
  have hd := congrArg String.data h
  simp only [String.data_append] at hd
  exact String.ext (List.append_cancel_left (List.append_cancel_left
    ((List.append_assoc ..).symm.trans (hd.trans (List.append_assoc ..)))))

theorem insertItem_map_prefixed (p : String) (acc : List (String × Json))
    (k : String) (v : Json) :
    insertItem (acc.map (fun kv => (p ++ "_" ++ kv.1, kv.2))) (p ++ "_" ++ k) v
      = (insertItem acc k v).map (fun kv => (p ++ "_" ++ kv.1, kv.2)) := by
  have hany : (acc.map (fun kv => (p ++ "_" ++ kv.1, kv.2))).any
      (fun q => q.1 = p ++ "_" ++ k) = acc.any (fun q => q.1 = k) := by
    rw [List.any_map, Bool.eq_iff_iff]
    simp only [List.any_eq_true, Function.comp, decide_eq_true_eq]
    constructor
    · rintro ⟨q, hq, he⟩
      exact ⟨q, hq, prefix_key_inj p q.1 k he⟩
    · rintro ⟨q, hq, he⟩
      exact ⟨q, hq, by rw [he]⟩
  unfold insertItem
  rw [hany]
  by_cases hb : acc.any (fun q => q.1 = k) = true
  · rw [if_pos hb, if_pos hb, List.map_map, List.map_map]
    refine List.map_congr_left fun a _ => ?_
    by_cases hak : a.1 = k
    · simp [Function.comp, hak]
    · have hne : ¬(p ++ "_" ++ a.1 = p ++ "_" ++ k) :=
        fun hc => hak (prefix_key_inj p a.1 k hc)
      simp [Function.comp, hak, hne]
  · rw [if_neg hb, if_neg hb, List.map_append]
    rfl

theorem foldl_insertItem_map_prefixed (p : String)
    (items acc : List (String × Json)) :
    (items.map (fun kv => (p ++ "_" ++ kv.1, kv.2))).foldl
        (fun a kv => insertItem a kv.1 kv.2)
        (acc.map (fun kv => (p ++ "_" ++ kv.1, kv.2)))
      = (items.foldl (fun a kv => insertItem a kv.1 kv.2) acc).map
          (fun kv => (p ++ "_" ++ kv.1, kv.2)) := by
  induction items generalizing acc with
  | nil => rfl
  | cons kv rest ih =>
    simp only [List.map_cons, List.foldl_cons]
    rw [insertItem_map_prefixed, ih]

theorem dictOfItems_map_prefixed (p : String) (items : List (String × Json)) :
    dictOfItems (items.map (fun kv => (p ++ "_" ++ kv.1, kv.2)))
      = (dictOfItems items).map (fun kv => (p ++ "_" ++ kv.1, kv.2)) := by
  simpa [dictOfItems] using foldl_insertItem_map_prefixed p items []

theorem flattenItems_prefixed : ∀ (o : JsonObj) (p q : String), p ≠ "" → q ≠ "" →
    flattenItems o (p ++ "_" ++ q)
      = (flattenItems o q).map (fun kv => (p ++ "_" ++ kv.1, kv.2))
  | .nil, _, _, _, _ => rfl
  | .cons k v tl, p, q, hp, hq => by
    have ihtl := flattenItems_prefixed tl p q hp hq
    have hnkL : newKey (p ++ "_" ++ q) k = p ++ "_" ++ (q ++ "_" ++ k) := by
      rw [newKey, if_neg (append_underscore_ne p q)]
      simp [String.append_assoc]
    have hnkR : newKey q k = q ++ "_" ++ k := by rw [newKey, if_neg hq]
    cases v with
    | obj o2 =>
      have iho := flattenItems_prefixed o2 p (q ++ "_" ++ k) hp
        (append_underscore_ne q k)
      have hd := dictOfItems_map_prefixed p (flattenItems o2 (q ++ "_" ++ k))
      simp only [String.append_assoc] at ihtl hnkL hnkR iho hd
      simp only [flattenItems, List.map_append, String.append_assoc, hnkL,
        hnkR, ihtl]
      rw [iho, hd]
    | null => simp only [flattenItems, hnkL, hnkR, List.map_append, ihtl]; rfl
    | bool b => simp only [flattenItems, hnkL, hnkR, List.map_append, ihtl]; rfl
    | num n => simp only [flattenItems, hnkL, hnkR, List.map_append, ihtl]; rfl
    | str s => simp only [flattenItems, hnkL, hnkR, List.map_append, ihtl]; rfl
    | arr a => simp only [flattenItems, hnkL, hnkR, List.map_append, ihtl]; rfl

theorem lookupRow_map_overwrite (k : String) (v : Json) :
    ∀ acc : List (String × Json), acc.any (fun r => r.1 = k) = true →
      lookupRow (acc.map (fun r => if r.1 = k then (r.1, v) else r)) k = some v := by
  intro acc h
  induction acc with
  | nil => simp at h
  | cons q rest ih =>
    by_cases hq : q.1 = k
    · simp [lookupRow, List.find?_cons, hq]
    · simp only [List.any_cons, Bool.or_eq_true, decide_eq_true_eq] at h
      rcases h with h | h
      · exact absurd h hq
      · have := ih h
        simpa [lookupRow, List.find?_cons, hq] using this

theorem lookupRow_append_new (k : String) (v : Json)
    (acc : List (String × Json)) (h : acc.any (fun r => r.1 = k) = false) :
    lookupRow (acc ++ [(k, v)]) k = some v := by
  have hnone : acc.find? (fun r => r.1 == k) = none := by
    rw [List.find?_eq_none]
    intro x hx hbeq
    have : acc.any (fun r => r.1 = k) = true :=
      List.any_eq_true.mpr ⟨x, hx, by simpa using hbeq⟩
    rw [h] at this
    cases this
  rw [lookupRow, List.find?_append, hnone]
  simp

theorem lookupRow_insertItem (acc : List (String × Json)) (k : String)
    (v : Json) : lookupRow (insertItem acc k v) k = some v := by
  unfold insertItem
  by_cases hb : acc.any (fun r => r.1 = k) = true
  · rw [if_pos hb]
    exact lookupRow_map_overwrite k v acc hb
  · rw [if_neg hb]
    exact lookupRow_append_new k v acc (Bool.eq_false_iff.mpr hb)

theorem dictOfItems_concat (items : List (String × Json)) (k : String)
    (v : Json) :
    dictOfItems (items ++ [(k, v)]) = insertItem (dictOfItems items) k v := by
  rw [dictOfItems, dictOfItems, List.foldl_append]
  rfl

/-- C6: the Flattener joins nested mapping keys depth-first with the fixed
underscore separator: `new_key` is `parent + "_" + k` when a parent prefix
exists and `k` otherwise, so under nonempty prefixes the flat items produced
with prefix `p ++ "_" ++ q` are those produced with prefix `q` with `p` and an
underscore joined on the front; merging is last-write-wins at equal paths (a
later item for a path overrides the value found at that path); the nested
example gives header `a_b,a_c` and row `1,2`. -/
theorem flatten_underscore_join :
    (∀ parent k : String,
        newKey parent k = if parent = "" then k else parent ++ "_" ++ k)
    ∧ (∀ (o : JsonObj) (p q : String), p ≠ "" → q ≠ "" →
        flattenItems o (p ++ "_" ++ q)
          = (flattenItems o q).map (fun kv => (p ++ "_" ++ kv.1, kv.2)))
    ∧ (∀ (items : List (String × Json)) (k : String) (v : Json),
        lookupRow (dictOfItems (items ++ [(k, v)])) k = some v)
    ∧ json_to_csv_data exNestedBC = "a_b,a_c\n1,2\n" :=
  ⟨fun _ _ => rfl, flattenItems_prefixed,
    fun items k v => (dictOfItems_concat items k v).symm ▸
      lookupRow_insertItem (dictOfItems items) k v,
    by rfl⟩

/-- C6 witness: instantiating the underscore-joining law at the record
`\x7b"b": 1\x7d` with prefixes `"x"` and `"a"`. -/
theorem flatten_underscore_join_witness :
    flattenItems (JsonObj.cons "b" (Json.num 1) JsonObj.nil) ("x" ++ "_" ++ "a")
      = (flattenItems (JsonObj.cons "b" (Json.num 1) JsonObj.nil) "a").map
          (fun kv => ("x" ++ "_" ++ kv.1, kv.2)) :=
  flatten_underscore_join.2.1 (JsonObj.cons "b" (Json.num 1) JsonObj.nil)
    "x" "a" (by decide) (by decide)

/-! ### C9: quoting and field-level round trip -/

theorem collapseQuotes_escape (cs : List Char) :
    collapseQuotes (cs.foldr (fun c acc =>
      if c = '\"' then '\"' :: '\"' :: acc else c :: acc) []) = cs := by
  induction cs with
  | nil => rfl
  | cons c rest ih =>
    by_cases hc : c = '\"'
    · simp only [List.foldr_cons, if_pos hc, hc]
      rw [collapseQuotes.eq_def]
      simp [ih]
    · simp only [List.foldr_cons, if_neg hc]
      rcases he : rest.foldr (fun c acc =>
          if c = '\"' then '\"' :: '\"' :: acc else c :: acc) [] with _ | ⟨d, ds⟩
      · rw [he] at ih
        rw [collapseQuotes.eq_def]
        simpa using ih.symm
      · rw [he] at ih
        rw [collapseQuotes.eq_def]
        simp [hc, ih]

theorem escapeQuotes_data (s : String) :
    (escapeQuotes s).data = s.data.foldr (fun c acc =>
      if c = '\"' then '\"' :: '\"' :: acc else c :: acc) [] := rfl

/-- C9: a string field value containing a comma, a quote or a newline is
emitted by the writer as the field wrapped in quotes with every internal
quote doubled, and the field-level read-back of a standard CSV reader
recovers exactly the original string. -/
theorem quoted_field_roundtrip (s : String) (h : needsQuote s = true) :
    (∀ single : Bool, csvField single s = "\"" ++ escapeQuotes s ++ "\"")
    ∧ csvReadField (csvField false s) = s := by
  have hq : ∀ single : Bool, csvField single s = quoteField s := by
    intro single
    unfold csvField
    rw [h]
    rfl
  refine ⟨fun single => hq single, ?_⟩
  rw [hq false]
  have hdata : (quoteField s).data = '\"' :: ((escapeQuotes s).data ++ ['\"']) := by
    unfold quoteField
    rw [String.data_append, String.data_append]
    rfl
  unfold csvReadField
  rw [hdata]
  simp only [List.dropLast_concat]
  rw [escapeQuotes_data, collapseQuotes_escape]

/-- C9 witness: the value `"a,b"` is quoted in the output and re-parses to the
exact original string. -/
theorem quoted_field_roundtrip_witness :
    needsQuote "a,b" = true
    ∧ csvField false "a,b" = "\"a,b\""
    ∧ csvReadField (csvField false "a,b") = "a,b" :=
  ⟨by decide,
    ((quoted_field_roundtrip "a,b" (by decide)).1 false).trans (by rfl),
    (quoted_field_roundtrip "a,b" (by decide)).2⟩
